import Mathlib

/-!
# Verification of the Book tree / project controller logic of azuredatastudio

Shallow embedding of the algorithmic parts of
`src/extensions/sql-database-projects/src/controllers/projectController.ts`
(`BookTreeViewProvider`, `ProjectsController`) and
`src/extensions/arc/src/ui/tree/azureArcTreeDataProvider.ts`.

Conventions of the embedding:
* JavaScript strings are Lean `String`s; `path.join` is modelled as posix
  separator concatenation (no segment normalization is exercised by the code
  under study); `path.basename`/`path.dirname` are modelled on the posix
  separator `/`.
* Possibly-`undefined` values are `Option`s.  JS truthiness of a
  possibly-undefined string (`if (x.url)`) is `some s` with `s ≠ ""`;
  truthiness of a possibly-undefined boolean is `= some true`.
* Host / external collaborators (the `fast-glob` globber, `fs` existence
  probes, `js-yaml` parsing, the `vscode-languageclient` UUID validator) are
  parameters of the embedded functions: the code under study only branches on
  their results.
* Thrown exceptions are `Except.error`; surfaced error messages
  (`vscode.window.showErrorMessage` / `this._errorMessage`) are collected in
  lists, in call order.
-/

namespace AzDataStudio

/-! ## String helpers (JS string API fragments used by the code) -/

/-- Does `pat` occur (as a contiguous substring) in `s`?  Char-list core of
JS `String.prototype.includes`. -/
def containsSubstrChars : List Char → List Char → Bool
  | [], pat => pat.isEmpty
  | c :: rest, pat => pat.isPrefixOf (c :: rest) || containsSubstrChars rest pat

/-- JS `String.prototype.includes(pat)`. -/
def containsSubstr (s pat : String) : Bool :=
  containsSubstrChars s.data pat.data

/-- Char-list core of JS `String.prototype.replace(pat, rep)` with a *string*
pattern: replaces only the first (leftmost) occurrence of `pat`, and returns
the input unchanged when `pat` does not occur; an empty pattern matches at
position 0 (JS semantics). -/
def replaceFirstChars : List Char → List Char → List Char → List Char
  | [], pat, rep => if pat.isEmpty then rep else []
  | c :: rest, pat, rep =>
    if pat.isPrefixOf (c :: rest) then rep ++ (c :: rest).drop pat.length
    else c :: replaceFirstChars rest pat rep

/-- JS `String.prototype.replace(pat, rep)` with a string pattern (first
occurrence only; the replacement is inserted verbatim). -/
def replaceFirst (s pat rep : String) : String :=
  ⟨replaceFirstChars s.data pat.data rep.data⟩

/-- Bounded-fuel char-list core of a *plain* global replacement: every
non-overlapping occurrence of `pat`, left to right, is replaced by `rep`
inserted verbatim.  Each step consumes at least one character of the input
when `pat` is non-empty, so `fuel = input length` suffices.  This is the
reading "every occurrence of the pattern replaced by the value" — the
claim-side comparator; the source's `String.replace` additionally applies
`$`-substitution to the replacement (see `replaceAllJSAux`). -/
def replaceAllCharsAux : Nat → List Char → List Char → List Char → List Char
  | 0, s, _, _ => s
  | _ + 1, [], _, _ => []
  | fuel + 1, c :: rest, pat, rep =>
    if !pat.isEmpty && pat.isPrefixOf (c :: rest) then
      rep ++ replaceAllCharsAux fuel ((c :: rest).drop pat.length) pat rep
    else c :: replaceAllCharsAux fuel rest pat rep

/-- Claim-side global replacement: every occurrence of `pat` replaced by
`rep` taken verbatim (an empty pattern replaces nothing — the patterns built
by the code are never empty). -/
def replaceAllVerbatim (s pat rep : String) : String :=
  ⟨replaceAllCharsAux s.data.length s.data pat.data rep.data⟩

/-- JS replacement-string `$`-substitution (ECMA-262 GetSubstitution) for a
regex with no capture groups: in the replacement string, `$$` inserts `$`,
`$&` inserts the matched substring, `` $` `` (dollar + backquote, char 96)
inserts the portion of the subject *before* the match, `$'` (dollar +
apostrophe, char 39) the portion *after* the match; a `$` followed by
anything else (including group references, absent here) is literal. -/
def applyDollarPatterns (before matched after : List Char) :
    List Char → List Char
  | [] => []
  | c :: rest =>
    if c = '$' then
      match rest with
      | [] => ['$']
      | c2 :: rest2 =>
        if c2 = '$' then '$' :: applyDollarPatterns before matched after rest2
        else if c2 = '&' then
          matched ++ applyDollarPatterns before matched after rest2
        else if c2 = Char.ofNat 96 then
          before ++ applyDollarPatterns before matched after rest2
        else if c2 = Char.ofNat 39 then
          after ++ applyDollarPatterns before matched after rest2
        else '$' :: applyDollarPatterns before matched after (c2 :: rest2)
    else c :: applyDollarPatterns before matched after rest

/-- Bounded-fuel char-list core of JS `String.prototype.replace(/pat/g, rep)`
for a literal pattern: every non-overlapping occurrence of `pat`, left to
right, is replaced by `rep` *after* `$`-substitution against that match.
`seen` is the (original) subject prefix before the current position, so for
each match the subject splits as `seen / pat / after` — the contexts
`` $` `` and `$'` refer to. -/
def replaceAllJSAux : Nat → List Char → List Char → List Char → List Char →
    List Char
  | 0, _, s, _, _ => s
  | _ + 1, _, [], _, _ => []
  | fuel + 1, seen, c :: rest, pat, rep =>
    if !pat.isEmpty && pat.isPrefixOf (c :: rest) then
      applyDollarPatterns seen pat ((c :: rest).drop pat.length) rep ++
        replaceAllJSAux fuel (seen ++ pat) ((c :: rest).drop pat.length) pat rep
    else c :: replaceAllJSAux fuel (seen ++ [c]) rest pat rep

/-- JS `String.prototype.replace(/pat/g, rep)` with a literal pattern and a
string replacement: global, left to right, with `$`-substitution applied to
the replacement at each match. -/
def replaceAllStr (s pat rep : String) : String :=
  ⟨replaceAllJSAux s.data.length [] s.data pat.data rep.data⟩

/-- `path.basename` (posix model): the final `/`-separated component.
(The code never applies it to a path with a trailing separator.) -/
def basename (s : String) : String :=
  ⟨(s.data.reverse.takeWhile (· ≠ '/')).reverse⟩

/-- `path.dirname` (posix model): everything before the final component.
(The code only applies it to paths containing a separator.) -/
def dirname (s : String) : String :=
  ⟨(s.data.reverse.dropWhile (· ≠ '/')).reverse.dropLast⟩

/-- `String.prototype.endsWith`. -/
def endsWithStr (s suffix : String) : Bool :=
  suffix.data.isSuffixOf s.data

/-- `String.prototype.toLowerCase` (ASCII model). -/
def toLowerStr (s : String) : String :=
  ⟨s.data.map Char.toLower⟩

/-- `path.join a b` (posix model): separator concatenation. -/
def pathJoin (a b : String) : String := a ++ "/" ++ b

/-- JS truthiness of a possibly-undefined string. -/
def jsTruthyStr : Option String → Bool
  | none => false
  | some s => s != ""

/-- JS truthiness of a possibly-undefined boolean. -/
def jsTruthyBool : Option Bool → Bool
  | some true => true
  | _ => false

/-! ## The TOC data model

A `toc.yml` node: `{ title, url?, external?, sections? }`; `sections`, when
present, is a list of nodes (the scope of claim C1, and the only well-typed
shape; `flattenArray` branches on `Array.isArray(val.sections)`).  The TOC
`external` flag is modelled by the field `extLink`. -/

inductive TocEntry : Type where
  | mk (title : String) (url : Option String) (extLink : Option Bool)
       (sections : Option (List TocEntry)) : TocEntry

def TocEntry.title : TocEntry → String
  | .mk t _ _ _ => t

def TocEntry.url : TocEntry → Option String
  | .mk _ u _ _ => u

def TocEntry.extLink : TocEntry → Option Bool
  | .mk _ _ x _ => x

def TocEntry.sections : TocEntry → Option (List TocEntry)
  | .mk _ _ _ s => s

/-- The sub-entries a node contributes to the flattening: its `sections` list
when it is an array, nothing otherwise. -/
def TocEntry.children (e : TocEntry) : List TocEntry :=
  e.sections.getD []

theorem TocEntry.sizeOf_children_lt (e : TocEntry) : sizeOf e.children < sizeOf e := by
  cases e with
  | mk t u x s =>
    cases s with
    | none => simp [TocEntry.children, TocEntry.sections]
    | some l => simp [TocEntry.children, TocEntry.sections]; omega

/-- `BookTreeViewProvider.flattenArray` (projectController.ts:748-754):
`array.reduce((acc, val) => Array.isArray(val.sections) ?
acc.concat(val).concat(this.flattenArray(val.sections, title)) :
acc.concat(val), [])`.  The `reduce`/`concat` accumulation is written as the
equivalent structural recursion (`concat` is associative with `[]` as unit):
each element, then — when its `sections` is an array — the flattening of that
array. -/
def flattenArray : List TocEntry → List TocEntry
  | [] => []
  | val :: rest =>
    match val with
    | .mk t u x (some secs) =>
      (TocEntry.mk t u x (some secs) :: flattenArray secs) ++ flattenArray rest
    | .mk t u x none =>
      TocEntry.mk t u x none :: flattenArray rest

mutual

/-- Modelled from the spec: the depth-first pre-order of one TOC node —
"a node, then recursively its own `sections`". -/
def preorderTree (e : TocEntry) : List TocEntry :=
  e :: preorderForest e.children
termination_by sizeOf e
decreasing_by exact TocEntry.sizeOf_children_lt e

/-- Modelled from the spec: the depth-first pre-order of a TOC forest, tree by
tree in document order. -/
def preorderForest : List TocEntry → List TocEntry
  | [] => []
  | e :: rest => preorderTree e ++ preorderForest rest
termination_by l => sizeOf l
decreasing_by all_goals (simp; try omega)

end

theorem flattenArray_eq_preorderForest (l : List TocEntry) :
    flattenArray l = preorderForest l := by
  match l with
  | [] => simp [flattenArray, preorderForest]
  | (TocEntry.mk t u x none) :: rest =>
    have ih := flattenArray_eq_preorderForest rest
    simp [flattenArray, preorderForest, preorderTree, TocEntry.children, TocEntry.sections, ih]
  | (TocEntry.mk t u x (some secs)) :: rest =>
    have ih1 := flattenArray_eq_preorderForest secs
    have ih2 := flattenArray_eq_preorderForest rest
    simp [flattenArray, preorderForest, preorderTree, TocEntry.children, TocEntry.sections,
      ih1, ih2]
termination_by sizeOf l
decreasing_by all_goals (simp; try omega)

/-- Every node that occurs anywhere in the flattening heads its own flattened
subtree, and that subtree is a contiguous (infix) block of the whole
flattening. -/
theorem flattenArray_subtree_infix (l : List TocEntry) (e : TocEntry)
    (he : e ∈ flattenArray l) :
    (e :: flattenArray e.children) <:+: flattenArray l := by
  match l with
  | [] => simp [flattenArray] at he
  | (TocEntry.mk t u x none) :: rest =>
    rw [flattenArray] at he ⊢
    rcases List.mem_cons.mp he with h | h
    · subst h
      exact ⟨[], flattenArray rest, by simp [TocEntry.children, TocEntry.sections, flattenArray]⟩
    · have ih := flattenArray_subtree_infix rest e h
      exact ih.trans ⟨[TocEntry.mk t u x none], [], by simp⟩
  | (TocEntry.mk t u x (some secs)) :: rest =>
    rw [flattenArray] at he ⊢
    rcases List.mem_append.mp he with h | h
    · rcases List.mem_cons.mp h with h' | h'
      · subst h'
        exact ⟨[], flattenArray rest, by simp [TocEntry.children, TocEntry.sections]⟩
      · have ih := flattenArray_subtree_infix secs e h'
        rcases ih with ⟨s, tl, hst⟩
        exact ⟨TocEntry.mk t u x (some secs) :: s, tl ++ flattenArray rest, by
          simp [← hst]⟩
    · have ih := flattenArray_subtree_infix rest e h
      rcases ih with ⟨s, tl, hst⟩
      exact ⟨(TocEntry.mk t u x (some secs) :: flattenArray secs) ++ s, tl, by
        simp [← hst]⟩
termination_by sizeOf l
decreasing_by all_goals (simp; try omega)

/-! ## Leaf resolution: `BookTreeViewProvider.getSections` -/

inductive BookTreeItemType : Type where
  | Book
  | ExternalLink
  | Notebook
  | Markdown
deriving DecidableEq, Repr

/-- The fields of `BookTreeItem` the claims observe.  `page` is the TOC
subtree the item was built from (`none` for whole-book items, whose `page` is
the full TOC document); collapsible state and the icon pair are pure UI range
data and are not modelled. -/
structure BookTreeItem : Type where
  title : String
  root : String
  page : Option TocEntry
  itemType : BookTreeItemType

/-- `path.join(root, 'content', url.concat('.ipynb'))`. -/
def ipynbPathOf (root url : String) : String :=
  pathJoin (pathJoin root "content") (url ++ ".ipynb")

/-- `path.join(root, 'content', url.concat('.md'))`. -/
def mdPathOf (root url : String) : String :=
  pathJoin (pathJoin root "content") (url ++ ".md")

/-- The message surfaced for a TOC leaf with no backing file:
`localize('missingFileError', 'Missing file : {0}', sections[i].title)`. -/
def missingFileError (title : String) : String :=
  "Missing file : " ++ title

/-- `BookTreeViewProvider.getSections` (projectController.ts:787-860).
`fsE` is `fs.existsSync`.  The first component is the returned
`notebooks` list, the second the error messages surfaced via
`this._errorMessage = error; vscode.window.showErrorMessage(error)`, in
encounter order.  (The source keeps only the last message in
`_errorMessage`; the list records every surfaced message.)  A section with a
falsy `url` is skipped (the source's empty `else` branch, reserved for
search), and the function never throws. -/
def getSections (fsE : String → Bool) (root : String) :
    List TocEntry → List BookTreeItem × List String
  | [] => ([], [])
  | e :: rest =>
    let res := getSections fsE root rest
    if jsTruthyStr e.url then
      if jsTruthyBool e.extLink then
        (⟨e.title, root, some e, .ExternalLink⟩ :: res.1, res.2)
      else
        let u := e.url.getD ""
        if fsE (ipynbPathOf root u) then
          (⟨e.title, root, some e, .Notebook⟩ :: res.1, res.2)
        else if fsE (mdPathOf root u) then
          (⟨e.title, root, some e, .Markdown⟩ :: res.1, res.2)
        else
          (res.1, missingFileError e.title :: res.2)
    else res

/-- `getSections` processes sections independently: splitting the section list
splits both the item list and the error list. -/
theorem getSections_append (fsE : String → Bool) (root : String)
    (a b : List TocEntry) :
    getSections fsE root (a ++ b) =
      ((getSections fsE root a).1 ++ (getSections fsE root b).1,
       (getSections fsE root a).2 ++ (getSections fsE root b).2) := by
  induction a with
  | nil => simp [getSections]
  | cons e rest ih =>
    simp only [List.cons_append, getSections, ih]
    by_cases h1 : jsTruthyStr e.url
    · by_cases h2 : jsTruthyBool e.extLink
      · simp [h1, h2, ih]
      · by_cases h3 : fsE (ipynbPathOf root (e.url.getD ""))
        · simp [h1, h2, h3, ih]
        · by_cases h4 : fsE (mdPathOf root (e.url.getD ""))
          · simp [h1, h2, h3, h4, ih]
          · simp [h1, h2, h3, h4, ih]
    · simp [h1, ih]

/-- Every Markdown item returned by `getSections` comes from a section whose
`.ipynb` artifact does not exist while its `.md` artifact does, and every
Notebook item from a section whose `.ipynb` artifact exists. -/
theorem getSections_markdown_characterization (fsE : String → Bool)
    (root : String) (secs : List TocEntry) (item : BookTreeItem)
    (hmem : item ∈ (getSections fsE root secs).1) :
    (item.itemType = .Markdown →
      ∃ e, item.page = some e ∧
        fsE (ipynbPathOf root (e.url.getD "")) = false ∧
        fsE (mdPathOf root (e.url.getD "")) = true) ∧
    (item.itemType = .Notebook →
      ∃ e, item.page = some e ∧ fsE (ipynbPathOf root (e.url.getD "")) = true) := by
  induction secs with
  | nil => simp [getSections] at hmem
  | cons e rest ih =>
    rw [getSections] at hmem
    by_cases h1 : jsTruthyStr e.url
    · by_cases h2 : jsTruthyBool e.extLink
      · simp only [h1, h2, if_true, List.mem_cons] at hmem
        rcases hmem with h | h
        · subst h; constructor <;> (intro hty; simp at hty)
        · exact ih h
      · by_cases h3 : fsE (ipynbPathOf root (e.url.getD ""))
        · simp only [h1, h2, h3, if_true, if_false, Bool.false_eq_true,
            List.mem_cons] at hmem
          rcases hmem with h | h
          · subst h
            refine ⟨fun hty => by simp at hty, fun _ => ⟨e, rfl, h3⟩⟩
          · exact ih h
        · by_cases h4 : fsE (mdPathOf root (e.url.getD ""))
          · simp only [h1, h2, h3, h4, if_true, if_false, Bool.false_eq_true,
              List.mem_cons] at hmem
            rcases hmem with h | h
            · subst h
              refine ⟨fun _ => ⟨e, rfl, by simpa using h3, h4⟩, fun hty => by simp at hty⟩
            · exact ih h
          · simp only [h1, h2, h3, h4, if_true, if_false, Bool.false_eq_true] at hmem
            exact ih hmem
    · simp only [h1, Bool.false_eq_true, if_false] at hmem
      exact ih hmem

/-! ## Claims C1, C2, C3 -/

/-- C1: for every TOC document whose nodes each have `sections` either absent
or a list, `flattenArray` produces the depth-first pre-order traversal of the
TOC tree: it equals the spec-side `preorderForest` (a node, then recursively
its own `sections`, then its later siblings), and every node occurring in the
flattening — i.e. every node of the tree at any depth — heads its own
flattened subtree, which forms a contiguous (infix) block of the output, so a
parent always precedes all of its descendants. -/
theorem claim_c1_flatten_is_preorder (l : List TocEntry) (e : TocEntry)
    (he : e ∈ flattenArray l) :
    flattenArray l = preorderForest l ∧
      (e :: flattenArray e.children) <:+: flattenArray l :=
  ⟨flattenArray_eq_preorderForest l, flattenArray_subtree_infix l e he⟩

theorem claim_c1_flatten_is_preorder_witness :
    flattenArray [TocEntry.mk "Intro" (some "intro") none
        (some [TocEntry.mk "Setup" (some "setup") none none])] =
      preorderForest [TocEntry.mk "Intro" (some "intro") none
        (some [TocEntry.mk "Setup" (some "setup") none none])] ∧
    (TocEntry.mk "Setup" (some "setup") none none ::
        flattenArray (TocEntry.mk "Setup" (some "setup") none none).children) <:+:
      flattenArray [TocEntry.mk "Intro" (some "intro") none
        (some [TocEntry.mk "Setup" (some "setup") none none])] :=
  claim_c1_flatten_is_preorder _ _ (by simp [flattenArray])

/-- C2: for a TOC leaf with a truthy `url` and `external` unset, when the
`.ipynb` artifact exists (in particular when both the `.ipynb` and the `.md`
artifact exist), `getSections` produces a Notebook node for that leaf at its
position, and a Markdown node anywhere in the result comes only from a leaf
whose `.ipynb` artifact does not exist while its `.md` artifact does. -/
theorem claim_c2_notebook_over_markdown (fsE : String → Bool) (root : String)
    (pre post : List TocEntry) (e : TocEntry)
    (hurl : jsTruthyStr e.url = true)
    (hext : jsTruthyBool e.extLink = false)
    (hnb : fsE (ipynbPathOf root (e.url.getD "")) = true)
    (_hmd : fsE (mdPathOf root (e.url.getD "")) = true) :
    (getSections fsE root (pre ++ e :: post)).1 =
      (getSections fsE root pre).1 ++
        ⟨e.title, root, some e, .Notebook⟩ :: (getSections fsE root post).1 ∧
    ∀ item ∈ (getSections fsE root (pre ++ e :: post)).1,
      item.itemType = .Markdown →
        ∃ e2, item.page = some e2 ∧
          fsE (ipynbPathOf root (e2.url.getD "")) = false ∧
          fsE (mdPathOf root (e2.url.getD "")) = true := by
  constructor
  · rw [getSections_append]
    rw [getSections]
    simp [hurl, hext, hnb]
  · intro item hmem hty
    exact (getSections_markdown_characterization fsE root _ item hmem).1 hty

theorem claim_c2_notebook_over_markdown_witness :
    (getSections
        (fun s => s == "b/content/intro.ipynb" || s == "b/content/intro.md")
        "b" [TocEntry.mk "Intro" (some "intro") none none]).1 =
      [⟨"Intro", "b", some (TocEntry.mk "Intro" (some "intro") none none),
        .Notebook⟩] ∧
    ∀ item ∈ (getSections
        (fun s => s == "b/content/intro.ipynb" || s == "b/content/intro.md")
        "b" [TocEntry.mk "Intro" (some "intro") none none]).1,
      item.itemType = .Markdown →
        ∃ e2, item.page = some e2 ∧
          (fun s => s == "b/content/intro.ipynb" || s == "b/content/intro.md")
              (ipynbPathOf "b" (e2.url.getD "")) = false ∧
          (fun s => s == "b/content/intro.ipynb" || s == "b/content/intro.md")
              (mdPathOf "b" (e2.url.getD "")) = true :=
  claim_c2_notebook_over_markdown _ "b" [] []
    (TocEntry.mk "Intro" (some "intro") none none)
    (by decide) (by decide) (by decide) (by decide)

/-- C3: for a TOC leaf with a truthy `url`, `external` unset, and neither the
`.ipynb` nor the `.md` artifact on disk, `getSections` omits the node from the
returned item list (the items are exactly those of the surrounding sections),
surfaces the error message `Missing file : <title>` naming the node's title,
and still processes all remaining sections; the embedded function is total —
the source `getSections` has no throw on this path. -/
theorem claim_c3_missing_artifact_dropped (fsE : String → Bool) (root : String)
    (pre post : List TocEntry) (e : TocEntry)
    (hurl : jsTruthyStr e.url = true)
    (hext : jsTruthyBool e.extLink = false)
    (hnb : fsE (ipynbPathOf root (e.url.getD "")) = false)
    (hmd : fsE (mdPathOf root (e.url.getD "")) = false) :
    (getSections fsE root (pre ++ e :: post)).1 =
      (getSections fsE root pre).1 ++ (getSections fsE root post).1 ∧
    (getSections fsE root (pre ++ e :: post)).2 =
      (getSections fsE root pre).2 ++
        missingFileError e.title :: (getSections fsE root post).2 ∧
    missingFileError e.title ∈ (getSections fsE root (pre ++ e :: post)).2 := by
  refine ⟨?_, ?_, ?_⟩
  · rw [getSections_append, getSections]
    simp [hurl, hext, hnb, hmd]
  · rw [getSections_append, getSections]
    simp [hurl, hext, hnb, hmd]
  · rw [getSections_append, getSections]
    simp [hurl, hext, hnb, hmd]

theorem claim_c3_missing_artifact_dropped_witness :
    (getSections (fun _ => false) "b"
        [TocEntry.mk "Ghost" (some "ghost") none none]).1 =
      (getSections (fun _ => false) "b" []).1 ++
        (getSections (fun _ => false) "b" []).1 ∧
    (getSections (fun _ => false) "b"
        [TocEntry.mk "Ghost" (some "ghost") none none]).2 =
      (getSections (fun _ => false) "b" []).2 ++
        missingFileError "Ghost" :: (getSections (fun _ => false) "b" []).2 ∧
    missingFileError "Ghost" ∈
      (getSections (fun _ => false) "b"
        [TocEntry.mk "Ghost" (some "ghost") none none]).2 :=
  claim_c3_missing_artifact_dropped _ "b" [] []
    (TocEntry.mk "Ghost" (some "ghost") none none)
    (by decide) (by decide) (by decide) (by decide)

/-! ## Aggregate book loading: `BookTreeViewProvider.getBooks` (claim C4) -/

/-- `BookTreeViewProvider.getBooks` (projectController.ts:756-785),
parametrized over the per-path try-block `load` (lines 759-777: resolve the
book root as the grandparent of the toc path, read and parse the sibling
`_config.yml` and the toc itself with the external `fs`/`js-yaml`
collaborators, flatten, and construct the `BookTreeItem`; any of those steps
may throw, i.e. return `.error`).  A thrown error is caught per path: its
message is recorded (`this._errorMessage = error`) and surfaced
(`showErrorMessage`), and the loop continues; the first component is the
returned `books` list, the second the surfaced messages in encounter order. -/
def getBooks (load : String → Except String BookTreeItem) :
    List String → List BookTreeItem × List String
  | [] => ([], [])
  | p :: rest =>
    let res := getBooks load rest
    match load p with
    | .ok b => (b :: res.1, res.2)
    | .error msg => (res.1, msg :: res.2)

theorem getBooks_append (load : String → Except String BookTreeItem)
    (a b : List String) :
    getBooks load (a ++ b) =
      ((getBooks load a).1 ++ (getBooks load b).1,
       (getBooks load a).2 ++ (getBooks load b).2) := by
  induction a with
  | nil => simp [getBooks]
  | cons p rest ih =>
    rw [List.cons_append, getBooks]
    cases hp : load p <;> simp [getBooks, hp, ih]

/-- Every path whose load succeeds contributes its book to the result. -/
theorem getBooks_ok_mem (load : String → Except String BookTreeItem)
    (paths : List String) (q : String) (b : BookTreeItem)
    (hq : q ∈ paths) (hok : load q = .ok b) :
    b ∈ (getBooks load paths).1 := by
  induction paths with
  | nil => simp at hq
  | cons p rest ih =>
    rw [getBooks]
    rcases List.mem_cons.mp hq with h | h
    · subst h
      rw [hok]
      simp
    · cases hp : load p <;> simp [ih h]

/-- C4: one failing book among the discovered TOC paths is caught and
recorded: it contributes zero nodes, its message appears among the surfaced
errors at its position, and every other path is still processed — in
particular every path that loads successfully still contributes its
`BookTreeItem`. -/
theorem claim_c4_bad_book_isolated (load : String → Except String BookTreeItem)
    (pre post : List String) (p msg : String)
    (hfail : load p = .error msg) :
    (getBooks load (pre ++ p :: post)).1 =
      (getBooks load pre).1 ++ (getBooks load post).1 ∧
    (getBooks load (pre ++ p :: post)).2 =
      (getBooks load pre).2 ++ msg :: (getBooks load post).2 ∧
    msg ∈ (getBooks load (pre ++ p :: post)).2 ∧
    ∀ q ∈ pre ++ p :: post, ∀ b, load q = .ok b →
      b ∈ (getBooks load (pre ++ p :: post)).1 := by
  refine ⟨?_, ?_, ?_, ?_⟩
  · rw [getBooks_append, getBooks, hfail]
  · rw [getBooks_append, getBooks, hfail]
  · rw [getBooks_append, getBooks, hfail]
    simp
  · intro q hq b hok
    exact getBooks_ok_mem load _ q b hq hok

theorem claim_c4_bad_book_isolated_witness :
    (getBooks
        (fun p => if p == "bad" then .error "boom"
          else .ok ⟨p, p, none, .Book⟩)
        ["good1", "bad", "good2"]).1 =
      (getBooks
        (fun p => if p == "bad" then .error "boom"
          else .ok ⟨p, p, none, .Book⟩) ["good1"]).1 ++
      (getBooks
        (fun p => if p == "bad" then .error "boom"
          else .ok ⟨p, p, none, .Book⟩) ["good2"]).1 ∧
    (getBooks
        (fun p => if p == "bad" then .error "boom"
          else .ok ⟨p, p, none, .Book⟩)
        ["good1", "bad", "good2"]).2 =
      (getBooks
        (fun p => if p == "bad" then .error "boom"
          else .ok ⟨p, p, none, .Book⟩) ["good1"]).2 ++
      "boom" :: (getBooks
        (fun p => if p == "bad" then .error "boom"
          else .ok ⟨p, p, none, .Book⟩) ["good2"]).2 ∧
    "boom" ∈ (getBooks
        (fun p => if p == "bad" then .error "boom"
          else .ok ⟨p, p, none, .Book⟩)
        ["good1", "bad", "good2"]).2 ∧
    ∀ q ∈ ["good1"] ++ "bad" :: ["good2"], ∀ b,
      (fun p => if p == "bad" then .error "boom"
        else .ok ⟨p, p, none, .Book⟩ : String → Except String BookTreeItem) q = .ok b →
      b ∈ (getBooks
        (fun p => if p == "bad" then .error "boom"
          else .ok ⟨p, p, none, .Book⟩)
        ["good1", "bad", "good2"]).1 :=
  claim_c4_bad_book_isolated _ ["good1"] ["good2"] "bad" "boom" rfl

/-! ## TOC discovery: `BookTreeViewProvider.getTableOfContentFiles` (claim C5) -/

/-- The glob pattern for one workspace root:
`path.join(workspacePath, '**', '_data', 'toc.yml').replace(/\\/g, '/')`
(posix model: the backslash-to-slash replacement is the identity). -/
def tocPattern (workspacePath : String) : String :=
  pathJoin (pathJoin (pathJoin workspacePath "**") "_data") "toc.yml"

/-- `BookTreeViewProvider.getTableOfContentFiles` (projectController.ts:547-564).
`globF` is the external `fast-glob` call taking the pattern and the `deep`
option (`none` = no depth limit); `cfgMaxDepth` is the configured
`maxBookSearchDepth` (`none` = unset); `tocPaths` is the provider's
accumulated `_tableOfContentPaths`, onto which each root's matches are
concatenated (`this._tableOfContentPaths.concat(...)`). -/
def getTableOfContentFiles (globF : String → Option Int → List String)
    (cfgMaxDepth : Option Int) (workspacePaths : List String)
    (tocPaths : List String) : List String :=
  let maxDepth : Option Int :=
    match cfgMaxDepth with
    | none => some 5
    | some d => if d < 0 then some 5 else if d = 0 then none else some d
  workspacePaths.foldl (fun st p => st ++ globF (tocPattern p) maxDepth) tocPaths

/-- Modelled from the spec (claim side): the effective search depth — "an
unset (undefined) or negative configured value yields the default depth 5, a
configured value of 0 yields an unlimited search depth, and any positive value
is used as given". -/
def claimedSearchDepth : Option Int → Option Int
  | none => some 5
  | some d => if d < 0 then some 5 else if d = 0 then none else some d

theorem foldl_append_flatMap {α β : Type} (f : α → List β) (ws : List α)
    (st : List β) :
    ws.foldl (fun acc p => acc ++ f p) st = st ++ ws.flatMap f := by
  induction ws generalizing st with
  | nil => simp
  | cons p rest ih => simp [ih, List.append_assoc]

/-- C5: the scan queries the globber at exactly the claimed effective depth
(unset/negative ↦ 5, zero ↦ unlimited, positive ↦ itself), appends this
scan's matches onto the accumulated list, and a repeated scan appends the very
same matches again — no deduplication. -/
theorem claim_c5_toc_discovery (globF : String → Option Int → List String)
    (cfgMaxDepth : Option Int) (workspacePaths : List String)
    (tocPaths : List String) (dneg dpos : Int)
    (hneg : dneg < 0) (hpos : 0 < dpos) :
    claimedSearchDepth none = some 5 ∧
    claimedSearchDepth (some dneg) = some 5 ∧
    claimedSearchDepth (some 0) = none ∧
    claimedSearchDepth (some dpos) = some dpos ∧
    getTableOfContentFiles globF cfgMaxDepth workspacePaths tocPaths =
      tocPaths ++ workspacePaths.flatMap
        (fun p => globF (tocPattern p) (claimedSearchDepth cfgMaxDepth)) ∧
    getTableOfContentFiles globF cfgMaxDepth workspacePaths
        (getTableOfContentFiles globF cfgMaxDepth workspacePaths tocPaths) =
      tocPaths ++ workspacePaths.flatMap
        (fun p => globF (tocPattern p) (claimedSearchDepth cfgMaxDepth)) ++
        workspacePaths.flatMap
          (fun p => globF (tocPattern p) (claimedSearchDepth cfgMaxDepth)) := by
  have hmain : ∀ tp : List String,
      getTableOfContentFiles globF cfgMaxDepth workspacePaths tp =
        tp ++ workspacePaths.flatMap
          (fun p => globF (tocPattern p) (claimedSearchDepth cfgMaxDepth)) := by
    intro tp
    cases cfgMaxDepth with
    | none =>
      simp only [getTableOfContentFiles, claimedSearchDepth]
      exact foldl_append_flatMap _ workspacePaths tp
    | some d =>
      simp only [getTableOfContentFiles, claimedSearchDepth]
      exact foldl_append_flatMap _ workspacePaths tp
  refine ⟨rfl, ?_, rfl, ?_, hmain tocPaths, ?_⟩
  · simp [claimedSearchDepth, hneg]
  · rw [claimedSearchDepth]
    rw [if_neg (by omega), if_neg (by omega)]
  · rw [hmain, hmain]

theorem claim_c5_toc_discovery_witness :
    claimedSearchDepth none = some 5 ∧
    claimedSearchDepth (some (-2)) = some 5 ∧
    claimedSearchDepth (some 0) = none ∧
    claimedSearchDepth (some 3) = some 3 ∧
    getTableOfContentFiles (fun p _ => [p]) (some 3) ["w"] ["old"] =
      ["old"] ++
        ["w"].flatMap (fun p => (fun p _ => [p]) (tocPattern p)
          (claimedSearchDepth (some 3))) ∧
    getTableOfContentFiles (fun p _ => [p]) (some 3) ["w"]
        (getTableOfContentFiles (fun p _ => [p]) (some 3) ["w"] ["old"]) =
      ["old"] ++
        ["w"].flatMap (fun p => (fun p _ => [p]) (tocPattern p)
          (claimedSearchDepth (some 3))) ++
        ["w"].flatMap (fun p => (fun p _ => [p]) (tocPattern p)
          (claimedSearchDepth (some 3))) :=
  claim_c5_toc_discovery _ (some 3) ["w"] ["old"] (-2) 3
    (by decide) (by decide)

/-! ## Debounced open action: `BookTreeViewProvider.runThrottledAction` (claim C6)

State machine for `runThrottledAction` (projectController.ts:684-701).
`this._resource` and `this._throttleTimer` are the provider fields; time is a
discrete `Nat`.  A crucial detail of the source: the `setTimeout` callback
`() => action()` never resets `this._throttleTimer`, so after the timer fires
the field still holds the stale (truthy) timer id — modelled by the
`expired` state, which is "truthy" for the `if (!this._throttleTimer)` test
just like `pending`.  Invocations of the wrapped `action` are recorded as
`(time, action id)` pairs. -/

inductive TimerState : Type where
  | idle
  | pending (fireAt : Nat) (actionId : Nat)
  | expired
deriving DecidableEq, Repr

structure ThrottleState : Type where
  resource : Option String
  timer : TimerState
deriving DecidableEq, Repr

def initThrottle : ThrottleState := ⟨none, .idle⟩

/-- `clearTimeout(this._throttleTimer); this._throttleTimer = undefined`. -/
def clearThrottleTimer (s : ThrottleState) : ThrottleState :=
  { s with timer := .idle }

/-- A timer whose deadline has passed fires (once) before the next call is
processed; the field keeps its stale, truthy value (`expired`). -/
def fireDue (t : Nat) (s : ThrottleState) : ThrottleState × List (Nat × Nat) :=
  match s.timer with
  | .pending fireAt a =>
    if fireAt ≤ t then ({ s with timer := .expired }, [(fireAt, a)])
    else (s, [])
  | _ => (s, [])

/-- `BookTreeViewProvider.runThrottledAction(resource, action)` at time `t`
with action id `a`: returns the updated provider state and the invocations
(due-timer firing included) this call gives rise to, in order. -/
def runThrottledAction (t : Nat) (resource : String) (a : Nat)
    (s : ThrottleState) : ThrottleState × List (Nat × Nat) :=
  let fired := fireDue t s
  let s1 := fired.1
  let isResourceChange := s1.resource ≠ some resource
  let s2 := if isResourceChange then clearThrottleTimer s1 else s1
  let s3 := { s2 with resource := some resource }
  match s3.timer with
  | .idle =>
    if isResourceChange then (s3, fired.2 ++ [(t, a)])
    else ({ s3 with timer := .pending (t + 300) a }, fired.2)
  | _ => (s3, fired.2)

/-- Run a chronological list of calls `(time, resource, action id)` from the
initial provider state; after the last call, time passes and any pending
timer fires.  Returns every invocation of the wrapped action, in order. -/
def runThrottleTrace (calls : List (Nat × String × Nat)) : List (Nat × Nat) :=
  let step := calls.foldl
    (fun (acc : ThrottleState × List (Nat × Nat)) c =>
      let r := runThrottledAction c.1 c.2.1 c.2.2 acc.1
      (r.1, acc.2 ++ r.2))
    (initThrottle, [])
  match step.1.timer with
  | .pending fireAt a => step.2 ++ [(fireAt, a)]
  | _ => step.2

/-- C6 counterexample: calling the throttled action twice in succession for
the *same* resource within the 300-unit window does **not** result in exactly
one invocation of the underlying action.  Two calls for resource `"r"` at
times 0 and 100 produce two invocations: the first call's action runs
immediately at time 0, and the second call's action is scheduled and runs at
time 400 — nothing coalesces the second call with the first. -/
theorem claim_c6_counterexample :
    runThrottleTrace [(0, "r", 1), (100, "r", 2)] = [(0, 1), (400, 2)] ∧
      ¬ (runThrottleTrace [(0, "r", 1), (100, "r", 2)]).length = 1 := by
  constructor
  · rfl
  · decide

/-- C6 (amended): the first request for a resource executes its action
immediately; a request for the same resource arriving while no timer is set
schedules *its own* action 300 units later (so two successive same-resource
calls invoke the underlying action twice — the first immediately, the second
after the delay); further same-resource requests while an action is pending
are dropped (coalesced into the pending, i.e. earlier, call's action — not
the latest); and a request for a different resource, when no timer is due,
cancels any pending action and executes immediately. -/
theorem claim_c6_throttle_amended :
    (∀ t r a, runThrottledAction t r a initThrottle =
      (⟨some r, .idle⟩, [(t, a)])) ∧
    (∀ t r a s, s.resource = some r → s.timer = .idle →
      runThrottledAction t r a s =
        (⟨some r, .pending (t + 300) a⟩, [])) ∧
    (∀ t r a s fireAt b, s.resource = some r → s.timer = .pending fireAt b →
      t < fireAt → runThrottledAction t r a s = (s, [])) ∧
    (∀ t r a s, s.resource ≠ some r →
      (∀ fireAt b, s.timer = .pending fireAt b → t < fireAt) →
      runThrottledAction t r a s = (⟨some r, .idle⟩, [(t, a)])) := by
  refine ⟨?_, ?_, ?_, ?_⟩
  · intro t r a
    simp [runThrottledAction, initThrottle, fireDue, clearThrottleTimer]
  · intro t r a s hres htimer
    simp [runThrottledAction, fireDue, clearThrottleTimer, hres, htimer]
  · intro t r a s fireAt b hres htimer hlt
    obtain ⟨res, tm⟩ := s
    dsimp only at hres htimer
    subst hres htimer
    have hnle : ¬ (fireAt ≤ t) := by omega
    simp [runThrottledAction, fireDue, hnle]
  · intro t r a s hres hnodue
    obtain ⟨res, tm⟩ := s
    dsimp only at hres hnodue
    cases tm with
    | idle => simp [runThrottledAction, fireDue, clearThrottleTimer, hres]
    | pending fireAt b =>
      have hlt := hnodue fireAt b rfl
      have hnle : ¬ (fireAt ≤ t) := by omega
      simp [runThrottledAction, fireDue, clearThrottleTimer, hnle, hres]
    | expired => simp [runThrottledAction, fireDue, clearThrottleTimer, hres]

theorem claim_c6_throttle_amended_witness :
    runThrottledAction 0 "r" 1 initThrottle =
      (⟨some "r", .idle⟩, [(0, 1)]) ∧
    runThrottledAction 100 "r" 2 ⟨some "r", .idle⟩ =
      (⟨some "r", .pending 400 2⟩, []) ∧
    runThrottledAction 200 "r" 3 ⟨some "r", .pending 400 2⟩ =
      (⟨some "r", .pending 400 2⟩, []) ∧
    runThrottledAction 200 "s" 4 ⟨some "r", .pending 400 2⟩ =
      (⟨some "s", .idle⟩, [(200, 4)]) :=
  ⟨claim_c6_throttle_amended.1 0 "r" 1,
   claim_c6_throttle_amended.2.1 100 "r" 2 ⟨some "r", .idle⟩ rfl rfl,
   claim_c6_throttle_amended.2.2.1 200 "r" 3 ⟨some "r", .pending 400 2⟩ 400 2
     rfl rfl (by decide),
   claim_c6_throttle_amended.2.2.2 200 "s" 4 ⟨some "r", .pending 400 2⟩
     (by decide) (fun fireAt b hb => by
        simp at hb
        omega)⟩

/-! ## Tree parent resolution: `BookTreeViewProvider.getParent` (claim C7) -/

/-- `BookTreeViewProvider.getParent` (projectController.ts:730-746).  `index`
is the `_allNotebooks` map (`Map.get`, with `none` for `undefined`);
`bookPath` is the provider's `_bookPath` field (the book opened through
`openBook` — the claim's "owning book" in the provider's single-book
operation); `root` is the queried element's `root` property.  The `.ipynb`
branch is `element.root.replace(baseName, 'readme.md')` — a *first occurrence*
string replacement of the basename, which coincides with substituting the
final path component whenever the basename's first occurrence in the path is
the final component (always the case for the `content/<url>.ipynb` paths the
provider indexes). -/
def getParent (index : String → Option BookTreeItem) (bookPath : String)
    (root : String) : Option BookTreeItem :=
  if endsWithStr root ".md" then
    let parentPath := pathJoin (pathJoin bookPath "content") "readme.md"
    if parentPath = root then none
    else index parentPath
  else if endsWithStr root ".ipynb" then
    let baseName := basename root
    index (replaceFirst root baseName "readme.md")
  else none

/-- C7: a node whose path ends in `.md` gets the owning book's
`content/readme.md` index entry as parent when that path differs from its
own, and no parent when they coincide; a node whose path ends in `.ipynb`
gets the index entry of its path with the basename replaced by `readme.md`;
any other node has no parent. -/
theorem claim_c7_getParent (index : String → Option BookTreeItem)
    (bookPath root : String) :
    (endsWithStr root ".md" = true →
      (pathJoin (pathJoin bookPath "content") "readme.md" = root →
        getParent index bookPath root = none) ∧
      (pathJoin (pathJoin bookPath "content") "readme.md" ≠ root →
        getParent index bookPath root =
          index (pathJoin (pathJoin bookPath "content") "readme.md"))) ∧
    (endsWithStr root ".md" = false → endsWithStr root ".ipynb" = true →
      getParent index bookPath root =
        index (replaceFirst root (basename root) "readme.md")) ∧
    (endsWithStr root ".md" = false → endsWithStr root ".ipynb" = false →
      getParent index bookPath root = none) := by
  refine ⟨fun hmd => ⟨fun heq => ?_, fun hne => ?_⟩,
    fun hmd hnb => ?_, fun hmd hnb => ?_⟩
  · simp [getParent, hmd, heq]
  · simp [getParent, hmd, hne]
  · simp [getParent, hmd, hnb]
  · simp [getParent, hmd, hnb]

theorem claim_c7_getParent_witness :
    ((getParent
        (fun s => if s == "b/content/readme.md"
          then some ⟨"Readme", "b/content/readme.md", none, .Markdown⟩ else none)
        "b" "b/content/page.md" =
      some ⟨"Readme", "b/content/readme.md", none, .Markdown⟩) ∧
     (getParent
        (fun s => if s == "b/content/readme.md"
          then some ⟨"Readme", "b/content/readme.md", none, .Markdown⟩ else none)
        "b" "b/content/readme.md" = none)) ∧
    (getParent
        (fun s => if s == "b/content/readme.md"
          then some ⟨"Readme", "b/content/readme.md", none, .Markdown⟩ else none)
        "b" "b/content/nb.ipynb" =
      some ⟨"Readme", "b/content/readme.md", none, .Markdown⟩) ∧
    (getParent
        (fun s => if s == "b/content/readme.md"
          then some ⟨"Readme", "b/content/readme.md", none, .Markdown⟩ else none)
        "b" "b/content" = none) := by
  refine ⟨⟨?_, ?_⟩, ?_, ?_⟩
  · exact ((claim_c7_getParent _ "b" "b/content/page.md").1 (by decide)).2
      (by decide)
  · exact ((claim_c7_getParent _ "b" "b/content/readme.md").1 (by decide)).1 rfl
  · exact (claim_c7_getParent _ "b" "b/content/nb.ipynb").2.1 (by decide)
      (by decide)
  · exact (claim_c7_getParent _ "b" "b/content").2.2 (by decide) (by decide)

/-! ## Macro expansion: `ProjectsController.macroExpansion` (claim C10) -/

def macroIndicator : String := "@@"

/-- A key consisting only of letters, digits and underscores — for such a key
the dynamically built `new RegExp('@@' + key + '@@', 'g')` denotes the
*literal* pattern `@@key@@` (no metacharacters).  Every key this controller
passes (`PROJECT_NAME`, `PROJECT_GUID`, `OBJECT_NAME`) satisfies this. -/
def regexLiteralKey (k : String) : Bool :=
  k.data.all (fun c => c.isAlphanum || c = '_')

/-- `ProjectsController.macroExpansion` (projectController.ts:229-243).  The
dictionary is a list of `(key, value)` pairs in JS `for...in` enumeration
order (insertion order for the string keys used here).  For each key, the
value is first checked: a value containing the indicator `@@` throws.
Otherwise `output.replace(new RegExp('@@' + key + '@@', 'g'), value)` runs a
global replacement whose pattern is modelled as the literal string
`@@key@@` — faithful exactly for `regexLiteralKey` keys — and whose
replacement undergoes JS `$`-substitution (`replaceAllStr`), so a value
containing `$&`, `$$`, backquote- or apostrophe-`$` patterns is *not*
inserted verbatim. -/
def macroExpansion (template : String) (macroDict : List (String × String)) :
    Except String String :=
  match macroDict with
  | [] => .ok template
  | (k, v) :: rest =>
    if containsSubstr v macroIndicator then
      .error ("Macro value " ++ v ++ " is invalid because it contains " ++
        macroIndicator)
    else
      macroExpansion
        (replaceAllStr template (macroIndicator ++ k ++ macroIndicator) v) rest

/-- A `$`-free replacement string passes through `$`-substitution
unchanged. -/
theorem applyDollarPatterns_of_no_dollar (before matched after : List Char)
    (rep : List Char) (h : '$' ∉ rep) :
    applyDollarPatterns before matched after rep = rep := by
  induction rep with
  | nil => rfl
  | cons c rest ih =>
    have hc : ¬ c = '$' := fun hc => h (hc ▸ List.mem_cons_self c rest)
    rw [applyDollarPatterns.eq_def]
    dsimp only
    rw [if_neg hc, ih (fun hm => h (List.mem_cons_of_mem c hm))]

/-- On `$`-free replacements the JS global replace and the verbatim global
replace coincide. -/
theorem replaceAllJSAux_of_no_dollar (fuel : Nat) (seen s pat rep : List Char)
    (h : '$' ∉ rep) :
    replaceAllJSAux fuel seen s pat rep = replaceAllCharsAux fuel s pat rep := by
  induction fuel generalizing seen s with
  | zero => rfl
  | succ n ih =>
    cases s with
    | nil => rfl
    | cons c rest =>
      rw [replaceAllJSAux, replaceAllCharsAux]
      by_cases hm : (!pat.isEmpty && pat.isPrefixOf (c :: rest)) = true
      · rw [if_pos hm, if_pos hm,
          applyDollarPatterns_of_no_dollar _ _ _ _ h, ih]
      · rw [if_neg hm, if_neg hm, ih]

theorem not_mem_of_containsSubstr_single (l : List Char) (c : Char)
    (h : containsSubstrChars l [c] = false) : c ∉ l := by
  induction l with
  | nil => simp
  | cons x rest ih =>
    rw [containsSubstrChars] at h
    simp only [List.isPrefixOf, Bool.and_true, Bool.or_eq_false_iff,
      beq_eq_false_iff_ne, ne_eq] at h
    simp only [List.mem_cons, not_or]
    exact ⟨fun hc => h.1 hc, ih h.2⟩

theorem replaceAllStr_of_no_dollar (s pat rep : String)
    (h : containsSubstr rep "$" = false) :
    replaceAllStr s pat rep = replaceAllVerbatim s pat rep := by
  have hmem : '$' ∉ rep.data := not_mem_of_containsSubstr_single rep.data '$' h
  exact congrArg String.mk
    (replaceAllJSAux_of_no_dollar s.data.length [] s.data pat.data rep.data
      hmem)

/-- C10 counterexample: the claim's "every occurrence of `@@` + key + `@@`
replaced by that key's value" fails.  The value `a$&b` does not contain the
indicator `@@`, so `macroExpansion` does not throw; yet JS `$`-substitution
turns `$&` into the matched `@@K@@`, so the program yields `xa@@K@@by` and
not `xa$&by`, the template with the occurrence replaced by the value. -/
theorem claim_c10_macroExpansion_cex :
    containsSubstr "a$&b" macroIndicator = false ∧
    macroExpansion "x@@K@@y" [("K", "a$&b")] = .ok "xa@@K@@by" ∧
    replaceAllVerbatim "x@@K@@y" (macroIndicator ++ "K" ++ macroIndicator)
        "a$&b" = "xa$&by" ∧
    ("xa@@K@@by" : String) ≠ "xa$&by" :=
  ⟨rfl, rfl, rfl, by decide⟩

/-- C10 (amended): for regex-literal (identifier-like) keys — the only keys
the controller passes — `macroExpansion` throws exactly when some macro value
contains the indicator `@@`; otherwise it returns the template with, for
every key in enumeration order, every occurrence of `@@key@@` replaced by
that key's value *as a JS replacement string* (with `$`-substitution applied
against each match); when moreover no value contains a `$`, this is plain
replacement by the value itself, as the original claim stated. -/
theorem claim_c10_macroExpansion_amended (template : String)
    (macroDict : List (String × String))
    (_hkeys : ∀ kv ∈ macroDict, regexLiteralKey kv.1 = true) :
    ((∃ kv ∈ macroDict, containsSubstr kv.2 macroIndicator = true) →
      ∃ msg, macroExpansion template macroDict = .error msg) ∧
    ((∀ kv ∈ macroDict, containsSubstr kv.2 macroIndicator = false) →
      macroExpansion template macroDict =
        .ok (macroDict.foldl
          (fun out kv =>
            replaceAllStr out (macroIndicator ++ kv.1 ++ macroIndicator) kv.2)
          template)) ∧
    ((∀ kv ∈ macroDict, containsSubstr kv.2 macroIndicator = false ∧
        containsSubstr kv.2 "$" = false) →
      macroExpansion template macroDict =
        .ok (macroDict.foldl
          (fun out kv =>
            replaceAllVerbatim out (macroIndicator ++ kv.1 ++ macroIndicator)
              kv.2)
          template)) := by
  clear _hkeys
  induction macroDict generalizing template with
  | nil =>
    refine ⟨fun h => ?_, fun _ => rfl, fun _ => rfl⟩
    simp at h
  | cons kv rest ih =>
    obtain ⟨k, v⟩ := kv
    refine ⟨?_, ?_, ?_⟩
    · rintro ⟨⟨k2, v2⟩, hmem, hbad⟩
      rw [macroExpansion]
      by_cases hv : containsSubstr v macroIndicator
      · exact ⟨_, by rw [if_pos hv]⟩
      · rw [if_neg hv]
        rcases List.mem_cons.mp hmem with h | h
        · exfalso
          injection h with h1 h2
          subst h2
          exact hv hbad
        · exact (ih _).1 ⟨⟨k2, v2⟩, h, hbad⟩
    · intro hok
      have hv : containsSubstr v macroIndicator = false := hok (k, v) (by simp)
      rw [macroExpansion, if_neg (by simp [hv])]
      rw [(ih _).2.1 (fun kv2 h2 => hok kv2 (List.mem_cons_of_mem _ h2))]
      rfl
    · intro hok
      have hv := hok (k, v) (by simp)
      rw [macroExpansion, if_neg (by simp [hv.1])]
      rw [(ih _).2.2 (fun kv2 h2 => hok kv2 (List.mem_cons_of_mem _ h2))]
      rw [List.foldl_cons]
      rw [replaceAllStr_of_no_dollar _ _ _ hv.2]

theorem claim_c10_macroExpansion_amended_witness :
    ((∃ kv ∈ [("OBJECT_NAME", "T1"), ("BAD", "a@@b")],
        containsSubstr kv.2 macroIndicator = true) →
      ∃ msg, macroExpansion "create @@OBJECT_NAME@@"
        [("OBJECT_NAME", "T1"), ("BAD", "a@@b")] = .error msg) ∧
    ((∀ kv ∈ [("OBJECT_NAME", "T1"), ("BAD", "a@@b")],
        containsSubstr kv.2 macroIndicator = false) →
      macroExpansion "create @@OBJECT_NAME@@"
        [("OBJECT_NAME", "T1"), ("BAD", "a@@b")] =
        .ok ([("OBJECT_NAME", "T1"), ("BAD", "a@@b")].foldl
          (fun out kv =>
            replaceAllStr out (macroIndicator ++ kv.1 ++ macroIndicator) kv.2)
          "create @@OBJECT_NAME@@")) ∧
    ((∀ kv ∈ [("OBJECT_NAME", "T1"), ("BAD", "a@@b")],
        containsSubstr kv.2 macroIndicator = false ∧
        containsSubstr kv.2 "$" = false) →
      macroExpansion "create @@OBJECT_NAME@@"
        [("OBJECT_NAME", "T1"), ("BAD", "a@@b")] =
        .ok ([("OBJECT_NAME", "T1"), ("BAD", "a@@b")].foldl
          (fun out kv =>
            replaceAllVerbatim out (macroIndicator ++ kv.1 ++ macroIndicator)
              kv.2)
          "create @@OBJECT_NAME@@")) :=
  claim_c10_macroExpansion_amended "create @@OBJECT_NAME@@"
    [("OBJECT_NAME", "T1"), ("BAD", "a@@b")] (by decide)

/-! ## Project creation: `ProjectsController.createNewProject` (claim C8) -/

/-- A filesystem interaction performed by `createNewProject`, in program
order: the `fs.access` existence probe, `fs.mkdir(..., {recursive: true})`,
and `fs.writeFile`. -/
inductive FsEffect : Type where
  | access (path : String)
  | mkdir (path : String)
  | writeFile (path : String) (contents : String)
deriving DecidableEq, Repr

def sqlprojExtension : String := ".sqlproj"

/-- `ProjectsController.createNewProject` (projectController.ts:82-117).
`isUUID` is the external `vscode-languageclient` UUID validator; `genGuid`
stands for `UUID.generateUuid().toUpperCase()`; `fileExists` is the outcome
of the `fs.access` probe on the target path; `newSqlProjectTemplate` is the
`template` argument.  Returns the thrown error or the created file's path,
paired with the filesystem effects performed before returning/throwing, in
order.  (`projectGuid &&` is JS truthiness — an empty-string GUID skips
validation; `projectGuid ?? genGuid` is nullish coalescing.) -/
def createNewProject (isUUID : String → Bool) (genGuid : String)
    (template : String) (fileExists : String → Bool) (newProjName : String)
    (folderPath : String) (projectGuid : Option String) :
    Except String String × List FsEffect :=
  if jsTruthyStr projectGuid && !isUUID (projectGuid.getD "") then
    (.error ("Specified GUID is invalid: '" ++ projectGuid.getD "" ++ "'"), [])
  else
    match macroExpansion template
        [("PROJECT_NAME", newProjName),
         ("PROJECT_GUID", projectGuid.getD genGuid)] with
    | .error e => (.error e, [])
    | .ok newProjFileContents =>
      let newProjFileName :=
        if endsWithStr (toLowerStr newProjName) sqlprojExtension then newProjName
        else newProjName ++ sqlprojExtension
      let newProjFilePath := pathJoin folderPath newProjFileName
      if fileExists newProjFilePath then
        (.error ("A project named " ++ newProjFileName ++
          " already exists in " ++ folderPath), [.access newProjFilePath])
      else
        (.ok newProjFilePath,
         [.access newProjFilePath, .mkdir (dirname newProjFilePath),
          .writeFile newProjFilePath newProjFileContents])

/-- C8: a supplied (truthy) project GUID failing UUID validation makes
`createNewProject` throw before any filesystem interaction — no existence
probe, no directory creation, no file write; and on any successful run the
existence check, the directory creation and the write are three separate,
ordered steps (no atomicity between check and write is provided). -/
theorem claim_c8_invalid_guid_no_mutation (isUUID : String → Bool)
    (genGuid template : String) (fileExists : String → Bool)
    (newProjName folderPath : String) (g : String)
    (hg : g ≠ "") (hbad : isUUID g = false)
    (pg : Option String) (p : String) :
    createNewProject isUUID genGuid template fileExists newProjName folderPath
        (some g) =
      (.error ("Specified GUID is invalid: '" ++ g ++ "'"), []) ∧
    ((createNewProject isUUID genGuid template fileExists newProjName
        folderPath pg).1 = .ok p →
      ∃ c, (createNewProject isUUID genGuid template fileExists newProjName
        folderPath pg).2 =
          [.access p, .mkdir (dirname p), .writeFile p c]) := by
  constructor
  · rw [createNewProject, if_pos]
    · simp
    · simp [jsTruthyStr, hbad, hg]
  · intro hok
    by_cases hguard : (jsTruthyStr pg && !isUUID (pg.getD "")) = true
    · rw [createNewProject, if_pos hguard] at hok
      simp at hok
    · rw [createNewProject, if_neg hguard] at hok ⊢
      cases hme : macroExpansion template
          [("PROJECT_NAME", newProjName), ("PROJECT_GUID", pg.getD genGuid)] with
      | error e =>
        rw [hme] at hok
        simp at hok
      | ok c =>
        rw [hme] at hok
        dsimp only at hok ⊢
        by_cases hfe : fileExists (pathJoin folderPath
            (if endsWithStr (toLowerStr newProjName) sqlprojExtension
              then newProjName else newProjName ++ sqlprojExtension)) = true
        · rw [if_pos hfe] at hok
          simp at hok
        · rw [if_neg hfe] at hok ⊢
          simp only [Except.ok.injEq] at hok
          subst hok
          exact ⟨c, rfl⟩

theorem claim_c8_invalid_guid_no_mutation_witness :
    createNewProject (fun _ => false) "G" "name=@@PROJECT_NAME@@"
        (fun _ => false) "proj" "dir" (some "xyz") =
      (.error ("Specified GUID is invalid: '" ++ "xyz" ++ "'"), []) ∧
    ((createNewProject (fun _ => false) "G" "name=@@PROJECT_NAME@@"
        (fun _ => false) "proj" "dir" none).1 = .ok "dir/proj.sqlproj" →
      ∃ c, (createNewProject (fun _ => false) "G" "name=@@PROJECT_NAME@@"
        (fun _ => false) "proj" "dir" none).2 =
          [.access "dir/proj.sqlproj", .mkdir (dirname "dir/proj.sqlproj"),
           .writeFile "dir/proj.sqlproj" c]) :=
  claim_c8_invalid_guid_no_mutation (fun _ => false) "G" "name=@@PROJECT_NAME@@"
    (fun _ => false) "proj" "dir" "xyz" (by decide) rfl none "dir/proj.sqlproj"

/-! ## Azure Arc tree provider (claim C9)

`azureArcTreeDataProvider.ts`.  A persisted controller record
(`ControllerInfo`) is opaque to the claims; its wrapping `ControllerTreeNode`
and the loading placeholder are the two node shapes the provider itself
creates.  `childrenOf` stands for `element.getChildren()` of an arbitrary
tree node (delegated to the node class, outside this file's code). -/

/-- Opaque persisted controller record (`ControllerInfo`); its fields play no
role in the claims. -/
structure ControllerInfo : Type where
  data : String
deriving DecidableEq, Repr

inductive ArcTreeNode : Type where
  | loadingNode
  | controllerNode (info : ControllerInfo)
deriving DecidableEq, Repr

/-- The provider state: the `_loading` flag and `_controllerNodes`. -/
structure ArcTreeState : Type where
  loading : Bool
  controllerNodes : List ArcTreeNode
deriving DecidableEq, Repr

/-- The provider's initial state (`_loading = true`, no controller nodes). -/
def initArcTreeState : ArcTreeState := ⟨true, []⟩

/-- `AzureArcTreeDataProvider.getChildren` (azureArcTreeDataProvider.ts:34-44). -/
def arcGetChildren (childrenOf : ArcTreeNode → List ArcTreeNode)
    (s : ArcTreeState) (element : Option ArcTreeNode) : List ArcTreeNode :=
  if s.loading then [ArcTreeNode.loadingNode]
  else
    match element with
    | some e => childrenOf e
    | none => s.controllerNodes

/-- `AzureArcTreeDataProvider.loadSavedControllers`
(azureArcTreeDataProvider.ts:93-104).  `readResult` is the outcome of the
`try` block (reading `globalState` and building the `ControllerTreeNode`s);
the `finally` clause clears `_loading` and fires the change event in both
outcomes.  Returns the new state, whether the change event fired, and the
error (if any) that propagates past the `finally` to the constructor's
`.catch`. -/
def loadSavedControllers (readResult : Except String (List ControllerInfo))
    (s : ArcTreeState) : ArcTreeState × Bool × Option String :=
  match readResult with
  | .ok mementos =>
    ({ loading := false,
       controllerNodes := mementos.map ArcTreeNode.controllerNode }, true, none)
  | .error e => ({ s with loading := false }, true, some e)

/-- C9: while `_loading` is set, `getChildren` returns exactly the loading
placeholder for every argument; `loadSavedControllers` always clears the
loading flag and fires the change event — also when the read throws — and in
the resulting state the root `getChildren` query never yields the loading
placeholder (the ok-branch rebuilds the nodes from mementos, none of which is
the placeholder; the error-branch keeps the previous nodes, placeholder-free
whenever they were before, as in the initial state). -/
theorem claim_c9_arc_loading (childrenOf : ArcTreeNode → List ArcTreeNode)
    (s : ArcTreeState) (element : Option ArcTreeNode)
    (readResult : Except String (List ControllerInfo))
    (hload : s.loading = true)
    (hclean : ArcTreeNode.loadingNode ∉ s.controllerNodes) :
    arcGetChildren childrenOf s element = [ArcTreeNode.loadingNode] ∧
    (loadSavedControllers readResult s).1.loading = false ∧
    (loadSavedControllers readResult s).2.1 = true ∧
    ArcTreeNode.loadingNode ∉
      arcGetChildren childrenOf (loadSavedControllers readResult s).1 none := by
  refine ⟨?_, ?_, ?_, ?_⟩
  · simp [arcGetChildren, hload]
  · cases readResult <;> simp [loadSavedControllers]
  · cases readResult <;> simp [loadSavedControllers]
  · cases readResult with
    | error e => simp [loadSavedControllers, arcGetChildren, hclean]
    | ok mementos => simp [loadSavedControllers, arcGetChildren]

theorem claim_c9_arc_loading_witness :
    arcGetChildren (fun _ => []) initArcTreeState none =
      [ArcTreeNode.loadingNode] ∧
    (loadSavedControllers (.error "read failed") initArcTreeState).1.loading =
      false ∧
    (loadSavedControllers (.error "read failed") initArcTreeState).2.1 = true ∧
    ArcTreeNode.loadingNode ∉
      arcGetChildren (fun _ => [])
        (loadSavedControllers (.error "read failed") initArcTreeState).1 none :=
  claim_c9_arc_loading (fun _ => []) initArcTreeState none
    (.error "read failed") rfl (by decide)

end AzDataStudio
